import Mathlib

/-!
Verification of the review enrichment pipeline of the
`fintech-apps-cx-analytics` repository: record normalization, sentiment
scoring, keyword extraction, theme mapping and per-rating aggregation.

The pipeline wiring (which column feeds which stage, the static theme
map) is embedded from `notebooks/sentiment_and_theme_analysis_notebook.ipynb`.
The bodies of the helper scripts (`scripts/sentiment_analyzer.py`,
`scripts/theme_analyzer.py`, `scripts/preprocessing.py`) are not part of
the sources available here; those components are modelled from the
specification, as marked on each definition.

All scores are rational numbers; machine floats are modelled by `Rat`.
-/

/-! ## Tokenization -/

/-- Modelled from the spec: whitespace tokenization used by the
lexicon-based scorer and the keyword/theme matching (the concrete
tokenizers live in the absent `scripts/` modules).  Accumulates the
current word (reversed) and splits at whitespace characters. -/
def tokenizeAux : List Char → List Char → List (List Char)
  | [], acc => if acc.isEmpty then [] else [acc.reverse]
  | c :: cs, acc =>
    if c.isWhitespace then
      if acc.isEmpty then tokenizeAux cs []
      else acc.reverse :: tokenizeAux cs []
    else tokenizeAux cs (c :: acc)

/-- Whitespace tokenization of a string. -/
def tokenize (s : String) : List String :=
  (tokenizeAux s.toList []).map fun cs => String.mk cs

/-- Character-wise lowercasing of a string. -/
def lowerStr (s : String) : String :=
  String.mk (s.toList.map Char.toLower)

/-! ## Sentiment Scorer (§4.2)

Modelled from the spec: `scripts/sentiment_analyzer.py` (the
`SentimentAnalyzer` class with its VADER-style `predict`) is absent from
the sources; the spec describes a fixed, pre-built lexicon/rule-based
compound-polarity scorer with configurable thresholds defaulting to
`0.05` / `-0.05`. -/

/-- Modelled from the spec: a fixed word-polarity lexicon standing for
the pre-built VADER lexicon of the absent `scripts/sentiment_analyzer.py`. -/
def defaultLexicon : List (String × Rat) :=
  [("love", 32/10), ("great", 31/10), ("good", 19/10), ("excellent", 27/10),
   ("best", 32/10), ("awesome", 29/10), ("easy", 17/10), ("nice", 18/10),
   ("bad", -25/10), ("crash", -15/10), ("crashing", -15/10), ("slow", -11/10),
   ("error", -18/10), ("terrible", -21/10), ("worst", -31/10), ("problem", -17/10)]

/-- Modelled from the spec: the un-normalized polarity of a text is the
sum of the lexicon valences of its lowercased whitespace tokens. -/
def rawPolarity (lexicon : List (String × Rat)) (text : String) : Rat :=
  ((tokenize text).map fun t => ((lexicon.lookup (lowerStr t)).getD 0)).sum

/-- Modelled from the spec: rational compound normalization mapping the
raw polarity sum into `[-1, 1]` (a rational stand-in for VADER's
`x / sqrt(x^2 + 15)`, monotone and fixing `0`). -/
def normalizeScore (x : Rat) : Rat := x / (|x| + 15)

/-- Compound polarity score of a text under a lexicon. -/
def compoundScore (lexicon : List (String × Rat)) (text : String) : Rat :=
  normalizeScore (rawPolarity lexicon text)

/-- Threshold classification of a compound score into a sentiment label
(spec §4.2: `score > pos → "positive"`, `score < neg → "negative"`,
otherwise `"neutral"`). -/
def labelOf (posT negT : Rat) (score : Rat) : String :=
  if score > posT then "positive"
  else if score < negT then "negative"
  else "neutral"

/-- Modelled from the spec: the sentiment analyzer resource — an
immutable lexicon plus the configurable thresholds, defaulting to the
contract values `0.05` and `-0.05`. -/
structure SentimentAnalyzer where
  lexicon : List (String × Rat) := defaultLexicon
  posThreshold : Rat := 1/20
  negThreshold : Rat := -(1/20)
deriving DecidableEq

/-- Modelled from the spec: `SentimentAnalyzer.predict` returns the
`(label, score)` pair for one text.  The analyzer state is threaded
explicitly so that absence of hidden state mutation is a theorem rather
than a convention: the call returns the (possibly updated) analyzer. -/
def SentimentAnalyzer.predict (a : SentimentAnalyzer) (text : String) :
    (String × Rat) × SentimentAnalyzer :=
  let sc := compoundScore a.lexicon text
  ((labelOf a.posThreshold a.negThreshold sc, sc), a)

/-- Batch application of the scorer over a sequence of texts (the
notebook applies `analyzer.predict` element-wise over the review-text
series); the analyzer state is threaded through the sequence. -/
def SentimentAnalyzer.predictBatch (a : SentimentAnalyzer) :
    List String → List (String × Rat) × SentimentAnalyzer
  | [] => ([], a)
  | t :: ts =>
    let (r, a1) := a.predict t
    let (rs, a2) := a1.predictBatch ts
    (r :: rs, a2)

/-! ## Theme Mapper (§4.4) -/

/-- The static keyword-to-theme dictionary, verbatim from the notebook
cell that defines `theme_map`. -/
def theme_map : List (String × String) :=
  [("login", "Account Access"),
   ("password", "Account Access"),
   ("slow", "Performance"),
   ("crash", "Performance"),
   ("error", "Performance"),
   ("fingerprint", "User Experience"),
   ("interface", "User Experience"),
   ("design", "User Experience"),
   ("customer", "Support"),
   ("support", "Support"),
   ("transfer", "Transactions"),
   ("payment", "Transactions"),
   ("feature", "Feature Request"),
   ("update", "Feature Request")]

/-- Modelled from the spec: the theme names a single keyword matches —
a map entry matches when its key equals, case-insensitively, one of the
whole tokens of the keyword (`scripts/theme_analyzer.py` is absent). -/
def matchesFor (tm : List (String × String)) (kw : String) : List String :=
  tm.filterMap fun p =>
    if lowerStr p.1 ∈ tokenize (lowerStr kw) then some p.2 else none

/-- Modelled from the spec: `map_keywords_to_themes` collects the
deduplicated matched theme names over all keywords and falls back to
`["Other"]` when nothing matches (`scripts/theme_analyzer.py` is absent). -/
def map_keywords_to_themes (kws : List String) (tm : List (String × String)) :
    List String :=
  let ms := (kws.flatMap (matchesFor tm)).dedup
  if ms.isEmpty then ["Other"] else ms

/-! ## Keyword Extractor (§4.3)

Modelled from the spec: `extract_keywords` of the absent
`scripts/theme_analyzer.py` ranks each document's unigrams and bigrams
by TF-IDF over the whole corpus and keeps the `top_n` best, ties broken
toward the lexicographically smaller term. -/

/-- Kernel-computable lexicographic comparison on character lists
(code-point order). -/
def lexLeAux : List Char → List Char → Bool
  | [], _ => true
  | _ :: _, [] => false
  | a :: as, b :: bs =>
    if a.toNat < b.toNat then true
    else if b.toNat < a.toNat then false
    else lexLeAux as bs

/-- Lexicographic `≤` on strings. -/
def lexLe (a b : String) : Bool := lexLeAux a.toList b.toList

/-- Strict lexicographic `<` on strings. -/
def lexLt (a b : String) : Bool := lexLe a b && !(lexLe b a)

/-- Adjacent-pair bigrams of a token list, joined by a single space. -/
def bigrams : List String → List String
  | a :: b :: rest => (a ++ " " ++ b) :: bigrams (b :: rest)
  | _ => []

/-- The terms (lowercased unigrams and bigrams) of one document. -/
def docTerms (d : String) : List String :=
  let ts := tokenize (lowerStr d)
  ts ++ bigrams ts

/-- The vocabulary of one document: its distinct terms. -/
def vocabOf (d : String) : List String := (docTerms d).dedup

/-- Term frequency of a term in a document. -/
def tf (d t : String) : Nat := (docTerms d).count t

/-- Document frequency of a term across the corpus. -/
def df (corpus : List String) (t : String) : Nat :=
  (corpus.filter fun d => (docTerms d).contains t).length

/-- Modelled from the spec: the corpus-relative TF-IDF weight of a term
in a document; the inverse-document-frequency factor is the rational
proxy `(N + 1) / (df + 1)`, monotone in document frequency, standing for
the logarithmic IDF of the absent vectorizer. -/
def tfidf (corpus : List String) (d t : String) : Rat :=
  (tf d t : Rat) * (((corpus.length : Rat) + 1) / ((df corpus t : Rat) + 1))

/-- One document's ranked keywords: its vocabulary sorted by descending
TF-IDF weight (lexicographic tie-break), truncated to `top_n`. -/
def keywordsFor (corpus : List String) (top_n : Nat) (d : String) : List String :=
  ((vocabOf d).mergeSort fun a b =>
    decide (tfidf corpus d a > tfidf corpus d b) ||
      (decide (tfidf corpus d a = tfidf corpus d b) && lexLe a b)).take top_n

/-- Modelled from the spec: `extract_keywords` computes the ranked
keyword list of every document of the corpus (the notebook calls it on
the `cleaned_review` column with `top_n = 5`). -/
def extract_keywords (corpus : List String) (top_n : Nat) : List (List String) :=
  corpus.map (keywordsFor corpus top_n)

/-! ## Data model (§3) and Aggregator (§4.5) -/

/-- A validated review row: required fields present, date canonical. -/
structure ValidatedReview where
  review_text : String
  rating : Nat
  date : String
  bank : String
  source : String
deriving DecidableEq

/-- An enriched review row, as written by the notebook pipeline. -/
structure EnrichedReview where
  review_text : String
  rating : Nat
  date : String
  bank : String
  source : String
  cleaned_review : String
  sentiment_label : String
  sentiment_score : Rat
  keywords : List String
  themes : List String
deriving DecidableEq

/-- One row of the per-bank summary table. -/
structure SummaryRecord where
  bank : String
  rating : Nat
  sentiment_score : Rat
deriving DecidableEq

/-- The reviews of one rating group. -/
def ratingGroup (rows : List EnrichedReview) (r : Nat) : List EnrichedReview :=
  rows.filter fun e => e.rating == r

/-- Modelled from the spec: `aggregate_sentiment_by_rating` of the
absent `scripts/theme_analyzer.py` — one summary row per distinct rating
present, carrying the arithmetic mean of the group's sentiment scores;
an empty input batch is an error, not a silent empty result. -/
def aggregate_sentiment_by_rating (rows : List EnrichedReview) (bank : String) :
    Except String (List SummaryRecord) :=
  if rows.isEmpty then .error "EmptyBatchError" else
    .ok <| ((rows.map fun e => e.rating).dedup).map fun r =>
      { bank := bank, rating := r,
        sentiment_score :=
          ((ratingGroup rows r).map fun e => e.sentiment_score).sum /
            ((ratingGroup rows r).length : Rat) }

/-! ## Record Normalizer (§4.1)

Modelled from the spec: `scripts/preprocessing.py` (`clean_reviews`) is
absent from the sources; the spec describes dropping rows with missing
`text`, `rating` or `date`, defaulting `source`, normalizing several
date representations to canonical `YYYY-MM-DD` strings (dropping
unparseable ones), and deduplicating on exact `(text, date, bank)` with
the first occurrence winning and input order preserved. -/

/-- An incoming date representation (spec §4.1: ISO string, epoch
milliseconds, or a locale-formatted string). -/
inductive RawDate where
  | iso (s : String)
  | epochMillis (ms : Int)
  | locale (s : String)
deriving DecidableEq

/-- The decimal digit character of `n % 10`. -/
def digitChar (n : Nat) : Char :=
  match n % 10 with
  | 0 => '0' | 1 => '1' | 2 => '2' | 3 => '3' | 4 => '4'
  | 5 => '5' | 6 => '6' | 7 => '7' | 8 => '8' | _ => '9'

/-- Whether a character is a decimal digit (by code point). -/
def isDigitCh (c : Char) : Bool := 48 ≤ c.toNat && c.toNat ≤ 57

/-- Whether a string has the canonical `YYYY-MM-DD` shape. -/
def isCanonDate (s : String) : Bool :=
  match s.toList with
  | [y1, y2, y3, y4, h1, m1, m2, h2, d1, d2] =>
    isDigitCh y1 && isDigitCh y2 && isDigitCh y3 && isDigitCh y4 &&
      (h1 == '-') && isDigitCh m1 && isDigitCh m2 &&
      (h2 == '-') && isDigitCh d1 && isDigitCh d2
  | _ => false

/-- Renders year/month/day as a canonical `YYYY-MM-DD` string
(assuming `y ≤ 9999`, `m, d ≤ 99`; digits are taken modulo 10). -/
def renderDate (y m d : Nat) : String :=
  String.mk [digitChar (y / 1000), digitChar (y / 100), digitChar (y / 10),
    digitChar y, '-', digitChar (m / 10), digitChar m, '-',
    digitChar (d / 10), digitChar d]

/-- Civil date from days since the Unix epoch (standard
era-decomposition algorithm); returns `(year, month, day)`. -/
def civilFromDays (z0 : Int) : Int × Nat × Nat :=
  let z := z0 + 719468
  let era := z.fdiv 146097
  let doe := (z - era * 146097).toNat
  let yoe := (doe - doe / 1460 + doe / 36524 - doe / 146096) / 365
  let doy := doe - (365 * yoe + yoe / 4 - yoe / 100)
  let mp := (5 * doy + 2) / 153
  let d := doy - (153 * mp + 2) / 5 + 1
  let m := if mp < 10 then mp + 3 else mp - 9
  (((yoe : Int) + era * 400) + (if m ≤ 2 then 1 else 0), m, d)

/-- Normalizes an ISO-style date string: a canonical `YYYY-MM-DD` string
passes through unchanged, a timestamp with a canonical date prefix and a
`T` separator is truncated to the date, anything else is unparseable. -/
def normIso (s : String) : Option String :=
  if isCanonDate s then some s
  else
    match s.toList with
    | y1 :: y2 :: y3 :: y4 :: h1 :: m1 :: m2 :: h2 :: d1 :: d2 :: c :: _ =>
      let t := String.mk [y1, y2, y3, y4, h1, m1, m2, h2, d1, d2]
      if c == 'T' && isCanonDate t then some t else none
    | _ => none

/-- Normalizes a locale-formatted `MM/DD/YYYY` string to canonical form. -/
def normLocale (s : String) : Option String :=
  match s.toList with
  | [m1, m2, s1, d1, d2, s2, y1, y2, y3, y4] =>
    if (s1 == '/') && (s2 == '/') &&
        (isCanonDate (String.mk [y1, y2, y3, y4, '-', m1, m2, '-', d1, d2])) then
      some (String.mk [y1, y2, y3, y4, '-', m1, m2, '-', d1, d2])
    else none
  | _ => none

/-- Normalizes epoch milliseconds to a canonical date string; out-of-range
years are treated as unparseable. -/
def normEpoch (ms : Int) : Option String :=
  let c := civilFromDays (ms.fdiv 86400000)
  if 0 ≤ c.1 ∧ c.1 ≤ 9999 then some (renderDate c.1.toNat c.2.1 c.2.2)
  else none

/-- Converts any accepted date representation to the canonical
`YYYY-MM-DD` string, or `none` when unparseable. -/
def normalizeDate : RawDate → Option String
  | .iso s => normIso s
  | .epochMillis ms => normEpoch ms
  | .locale s => normLocale s

/-- A raw scraped review row; optional fields model missing values. -/
structure RawReview where
  text : Option String
  rating : Option Nat
  date : Option RawDate
  bank : String
  source : Option String
deriving DecidableEq

/-- The default `source` constant used when the field is absent. -/
def defaultSource : String := "Google Play"

/-- Validates one raw row: drops it when `text`, `rating` or `date` is
missing, when the rating is outside `[1, 5]`, or when the date is
unparseable; defaults a missing `source`. -/
def validateRow (r : RawReview) : Option ValidatedReview :=
  match r.text, r.rating, r.date with
  | some t, some rt, some rd =>
    if 1 ≤ rt ∧ rt ≤ 5 then
      match normalizeDate rd with
      | some ds =>
        some { review_text := t, rating := rt, date := ds, bank := r.bank,
               source := r.source.getD defaultSource }
      | none => none
    else none
  | _, _, _ => none

/-- The deduplication key of a validated row (spec §4.1). -/
def dedupKey (v : ValidatedReview) : String × String × String :=
  (v.review_text, v.date, v.bank)

/-- First-occurrence deduplication on the `(text, date, bank)` key,
preserving input order; `seen` holds the keys already emitted. -/
def dedupeRows (seen : List (String × String × String)) :
    List ValidatedReview → List ValidatedReview
  | [] => []
  | v :: vs =>
    if dedupKey v ∈ seen then dedupeRows seen vs
    else v :: dedupeRows (dedupKey v :: seen) vs

/-- Modelled from the spec: `clean_reviews` of the absent
`scripts/preprocessing.py` — validate every row, deduplicate the
survivors, and report the number of dropped rows. -/
def clean_reviews (batch : List RawReview) : List ValidatedReview × Nat :=
  let validated := batch.filterMap validateRow
  let deduped := dedupeRows [] validated
  (deduped, batch.length - deduped.length)

/-- Re-presents a validated row as a raw row (the shape in which a
second Normalizer run would receive the Normalizer's own output). -/
def reinject (v : ValidatedReview) : RawReview :=
  { text := some v.review_text, rating := some v.rating,
    date := some (.iso v.date), bank := v.bank, source := some v.source }

/-! ## Pipeline Orchestrator (§4.6)

Embedded from the processing cell of
`notebooks/sentiment_and_theme_analysis_notebook.ipynb`: per bank the
notebook computes `cleaned_review` by applying the cleaning function to
`review_text`, applies `analyzer.predict` to the *raw* `review_text`
column, extracts keywords from the `cleaned_review` column with
`top_n = 5`, and maps the keywords to themes with `theme_map`.  The
cleaning function `preprocess_text` lives in the absent
`scripts/theme_analyzer.py` and is a parameter here. -/

/-- The enrichment stage of the notebook pipeline over one bank's
validated rows. -/
def enrichBank (a : SentimentAnalyzer) (tm : List (String × String))
    (top_n : Nat) (clean : String → String) (rows : List ValidatedReview) :
    List EnrichedReview :=
  let corpus := rows.map fun r => clean r.review_text
  rows.map fun r =>
    let cleaned := clean r.review_text
    let p := (a.predict r.review_text).1
    let kws := keywordsFor corpus top_n cleaned
    { review_text := r.review_text
      rating := r.rating
      date := r.date
      bank := r.bank
      source := r.source
      cleaned_review := cleaned
      sentiment_label := p.1
      sentiment_score := p.2
      keywords := kws
      themes := map_keywords_to_themes kws tm }

/-! ## Theorems -/

/-- The scorer's tokenizer yields no tokens on all-whitespace input. -/
theorem tokenizeAux_all_ws (cs : List Char) (h : ∀ c ∈ cs, c.isWhitespace = true) :
    tokenizeAux cs [] = [] := by
  induction cs with
  | nil => rfl
  | cons c cs ih =>
    have hc : c.isWhitespace = true := h c (List.mem_cons_self c cs)
    simp only [tokenizeAux, hc, if_true, List.isEmpty_nil]
    exact ih fun x hx => h x (List.mem_cons_of_mem c hx)

/-- C7: `SentimentAnalyzer.predict` is pure and deterministic: a call
leaves the analyzer state unchanged, and a second call on the identical
input returns the identical `(label, score)` pair. -/
theorem predict_pure_deterministic (a : SentimentAnalyzer) (text : String) :
    (a.predict text).2 = a ∧
      ((a.predict text).2.predict text).1 = (a.predict text).1 :=
  ⟨rfl, rfl⟩

/-- C8: the batch application of the scorer equals the element-wise map
of the single-text scorer, and leaves the analyzer state unchanged. -/
theorem predictBatch_eq_map (a : SentimentAnalyzer) (ts : List String) :
    a.predictBatch ts = (ts.map fun t => (a.predict t).1, a) := by
  induction ts with
  | nil => rfl
  | cons t ts ih =>
    simp only [SentimentAnalyzer.predictBatch, List.map_cons]
    rw [show (a.predict t).2 = a from rfl, ih]

/-- C9: on empty or whitespace-only text the scorer (with the default
thresholds) returns score `0` and label `"neutral"`, for any lexicon. -/
theorem predict_whitespace_neutral (lex : List (String × Rat)) (text : String)
    (h : text.toList.all Char.isWhitespace = true) :
    (SentimentAnalyzer.mk lex (1/20) (-(1/20))).predict text =
      (("neutral", 0), ⟨lex, 1/20, -(1/20)⟩) := by
  have htok : tokenize text = [] := by
    unfold tokenize
    rw [tokenizeAux_all_ws _ (by simpa [List.all_eq_true] using h)]
    rfl
  have hraw : rawPolarity lex text = 0 := by simp [rawPolarity, htok]
  have hsc : compoundScore lex text = 0 := by
    simp [compoundScore, hraw, normalizeScore]
  simp only [SentimentAnalyzer.predict, hsc, labelOf]
  norm_num

/-- C9 witness: the scorer at the concrete whitespace text `"  "`. -/
theorem predict_whitespace_neutral_witness :
    (SentimentAnalyzer.mk defaultLexicon (1/20) (-(1/20))).predict "  " =
      (("neutral", 0), ⟨defaultLexicon, 1/20, -(1/20)⟩) :=
  predict_whitespace_neutral defaultLexicon "  " (by decide)

/-- The threshold classification is consistent with its score argument. -/
theorem labelOf_consistent (sc : Rat) :
    (sc > 1/20 → labelOf (1/20) (-(1/20)) sc = "positive") ∧
      (sc < -(1/20) → labelOf (1/20) (-(1/20)) sc = "negative") ∧
      (-(1/20) ≤ sc → sc ≤ 1/20 → labelOf (1/20) (-(1/20)) sc = "neutral") := by
  unfold labelOf
  refine ⟨fun hgt => ?_, fun hlt => ?_, fun h1 h2 => ?_⟩
  · rw [if_pos hgt]
  · rw [if_neg (not_lt.mpr (le_of_lt (lt_trans hlt (by norm_num)))), if_pos hlt]
  · rw [if_neg (not_lt.mpr h2), if_neg (not_lt.mpr h1)]

/-- C1: with the default thresholds the label returned by the scorer
agrees with the returned score for every input text — score above
`1/20` is labelled `"positive"`, score below `-1/20` is labelled
`"negative"`, and a score in between is labelled `"neutral"` — and
consequently every enriched review produced by the pipeline carries a
`sentiment_label` consistent with the sign of its `sentiment_score`. -/
theorem sentiment_label_consistent (a : SentimentAnalyzer)
    (tm : List (String × String)) (top_n : Nat) (clean : String → String)
    (rows : List ValidatedReview)
    (hpos : a.posThreshold = 1/20) (hneg : a.negThreshold = -(1/20)) :
    (∀ text : String,
      ((a.predict text).1.2 > 1/20 → (a.predict text).1.1 = "positive") ∧
        ((a.predict text).1.2 < -(1/20) → (a.predict text).1.1 = "negative") ∧
        (-(1/20) ≤ (a.predict text).1.2 → (a.predict text).1.2 ≤ 1/20 →
          (a.predict text).1.1 = "neutral")) ∧
      ∀ e ∈ enrichBank a tm top_n clean rows,
        (e.sentiment_score > 1/20 → e.sentiment_label = "positive") ∧
          (e.sentiment_score < -(1/20) → e.sentiment_label = "negative") ∧
          (-(1/20) ≤ e.sentiment_score → e.sentiment_score ≤ 1/20 →
            e.sentiment_label = "neutral") := by
  constructor
  · intro text
    simp only [SentimentAnalyzer.predict, hpos, hneg]
    exact labelOf_consistent (compoundScore a.lexicon text)
  · intro e he
    simp only [enrichBank, List.mem_map] at he
    obtain ⟨r, _, rfl⟩ := he
    simp only [SentimentAnalyzer.predict, hpos, hneg]
    exact labelOf_consistent (compoundScore a.lexicon r.review_text)

/-- A concrete one-row validated batch used to witness the pipeline
theorems. -/
def sampleRows : List ValidatedReview :=
  [{ review_text := "love this great app", rating := 5, date := "2024-01-01",
     bank := "BOA", source := "Google Play" }]

/-- The enrichment of the sample batch is non-empty. -/
theorem sampleEnriched_ne_nil : enrichBank {} theme_map 5 id sampleRows ≠ [] := by
  simp [enrichBank, sampleRows]

/-- C1 witness: the threshold consistency at the concrete text
`"great"` and at the concrete head row of the enriched sample batch. -/
theorem sentiment_label_consistent_witness :
    (((({} : SentimentAnalyzer).predict "great").1.2 > 1/20 →
        (({} : SentimentAnalyzer).predict "great").1.1 = "positive") ∧
      ((({} : SentimentAnalyzer).predict "great").1.2 < -(1/20) →
        (({} : SentimentAnalyzer).predict "great").1.1 = "negative") ∧
      (-(1/20) ≤ (({} : SentimentAnalyzer).predict "great").1.2 →
        (({} : SentimentAnalyzer).predict "great").1.2 ≤ 1/20 →
        (({} : SentimentAnalyzer).predict "great").1.1 = "neutral")) ∧
      ((((enrichBank {} theme_map 5 id sampleRows).head
          sampleEnriched_ne_nil).sentiment_score > 1/20 →
        ((enrichBank {} theme_map 5 id sampleRows).head
          sampleEnriched_ne_nil).sentiment_label = "positive") ∧
        (((enrichBank {} theme_map 5 id sampleRows).head
            sampleEnriched_ne_nil).sentiment_score < -(1/20) →
          ((enrichBank {} theme_map 5 id sampleRows).head
            sampleEnriched_ne_nil).sentiment_label = "negative") ∧
        (-(1/20) ≤ ((enrichBank {} theme_map 5 id sampleRows).head
            sampleEnriched_ne_nil).sentiment_score →
          ((enrichBank {} theme_map 5 id sampleRows).head
            sampleEnriched_ne_nil).sentiment_score ≤ 1/20 →
          ((enrichBank {} theme_map 5 id sampleRows).head
            sampleEnriched_ne_nil).sentiment_label = "neutral")) :=
  ⟨(sentiment_label_consistent {} theme_map 5 id sampleRows rfl rfl).1 "great",
    (sentiment_label_consistent {} theme_map 5 id sampleRows rfl rfl).2 _
      (List.head_mem sampleEnriched_ne_nil)⟩

/-- C2: the Theme Mapper always returns a non-empty, duplicate-free
list of themes, and when no keyword token matches any map entry
(case-insensitively) the result is exactly `["Other"]`. -/
theorem themes_nonempty_other_fallback (kws : List String)
    (tm : List (String × String)) :
    map_keywords_to_themes kws tm ≠ [] ∧
      (map_keywords_to_themes kws tm).Nodup ∧
      ((∀ kw ∈ kws, ∀ p ∈ tm, lowerStr p.1 ∉ tokenize (lowerStr kw)) →
        map_keywords_to_themes kws tm = ["Other"]) := by
  simp only [map_keywords_to_themes]
  refine ⟨?_, ?_, ?_⟩
  · split
    · simp
    · rename_i hne
      simpa [List.isEmpty_iff] using hne
  · split
    · simp
    · exact List.nodup_dedup _
  · intro h
    have hflat : kws.flatMap (matchesFor tm) = [] := by
      rw [List.flatMap_eq_nil_iff]
      intro kw hkw
      unfold matchesFor
      rw [List.filterMap_eq_nil_iff]
      intro p hp
      simp [h kw hkw p hp]
    simp [hflat]

/-- C2 witness: the fallback and non-emptiness at a concrete keyword
list that matches nothing in the notebook's `theme_map`. -/
theorem themes_nonempty_other_fallback_witness :
    map_keywords_to_themes ["zzz"] theme_map ≠ [] ∧
      map_keywords_to_themes ["zzz"] theme_map = ["Other"] :=
  ⟨(themes_nonempty_other_fallback ["zzz"] theme_map).1,
    (themes_nonempty_other_fallback ["zzz"] theme_map).2.2 (by decide)⟩

/-- C3: the Aggregator returns exactly one summary record per distinct
rating present (duplicate-free ratings, a rating appears among the
records exactly when a review with it exists), each record's score is
the arithmetic mean of the group's sentiment scores, a singleton group
yields that review's own score, and an empty input batch is an error. -/
theorem aggregate_by_rating_correct (rows : List EnrichedReview) (bank : String) :
    (rows = [] → aggregate_sentiment_by_rating rows bank = .error "EmptyBatchError") ∧
      (rows ≠ [] → ∃ l, aggregate_sentiment_by_rating rows bank = .ok l ∧
        (l.map fun s => s.rating).Nodup ∧
        (∀ r : Nat, (r ∈ l.map fun s => s.rating) ↔ r ∈ rows.map fun e => e.rating) ∧
        (∀ s ∈ l, s.bank = bank ∧
          s.sentiment_score =
            ((rows.filter fun e => e.rating == s.rating).map
                fun e => e.sentiment_score).sum /
              ((rows.filter fun e => e.rating == s.rating).length : Rat)) ∧
        (∀ (r : Nat) (e : EnrichedReview),
          rows.filter (fun x => x.rating == r) = [e] →
            (⟨bank, r, e.sentiment_score⟩ : SummaryRecord) ∈ l)) := by
  constructor
  · intro h
    simp [aggregate_sentiment_by_rating, h]
  · intro h
    refine ⟨((rows.map fun e => e.rating).dedup).map (fun r =>
      { bank := bank, rating := r,
        sentiment_score :=
          ((ratingGroup rows r).map fun e => e.sentiment_score).sum /
            ((ratingGroup rows r).length : Rat) }), ?_, ?_, ?_, ?_, ?_⟩
    · simp [aggregate_sentiment_by_rating, List.isEmpty_iff, h]
    · simpa [Function.comp_def] using List.nodup_dedup (rows.map fun e => e.rating)
    · intro r
      simp
    · intro s hs
      rw [List.mem_map] at hs
      obtain ⟨r, _, rfl⟩ := hs
      exact ⟨rfl, rfl⟩
    · intro r e hfe
      have he : e ∈ rows.filter (fun x => x.rating == r) := by
        rw [hfe]; exact List.mem_cons_self e []
      rw [List.mem_filter] at he
      have hrmem : r ∈ (rows.map fun e => e.rating).dedup := by
        rw [List.mem_dedup, List.mem_map]
        exact ⟨e, he.1, by simpa using he.2⟩
      rw [List.mem_map]
      refine ⟨r, hrmem, ?_⟩
      have hgrp : ratingGroup rows r = [e] := hfe
      simp [hgrp]

/-- A concrete enriched review used to witness the Aggregator theorem. -/
def sampleEnriched : EnrichedReview :=
  { review_text := "a", rating := 5, date := "2024-01-01", bank := "B",
    source := "s", cleaned_review := "a", sentiment_label := "positive",
    sentiment_score := 1/2, keywords := [], themes := ["Other"] }

/-- C3 witness: the Aggregator at the empty batch and at a concrete
one-review batch. -/
theorem aggregate_by_rating_correct_witness :
    aggregate_sentiment_by_rating [] "B" = .error "EmptyBatchError" ∧
      (∃ l, aggregate_sentiment_by_rating [sampleEnriched] "B" = .ok l ∧
        (l.map fun s => s.rating).Nodup ∧
        (∀ r : Nat, (r ∈ l.map fun s => s.rating) ↔
          r ∈ [sampleEnriched].map fun e => e.rating) ∧
        (∀ s ∈ l, s.bank = "B" ∧
          s.sentiment_score =
            (([sampleEnriched].filter fun e => e.rating == s.rating).map
                fun e => e.sentiment_score).sum /
              (([sampleEnriched].filter fun e => e.rating == s.rating).length : Rat)) ∧
        (∀ (r : Nat) (e : EnrichedReview),
          [sampleEnriched].filter (fun x => x.rating == r) = [e] →
            (⟨"B", r, e.sentiment_score⟩ : SummaryRecord) ∈ l)) :=
  ⟨(aggregate_by_rating_correct [] "B").1 rfl,
    (aggregate_by_rating_correct [sampleEnriched] "B").2 (by simp)⟩

/-- C10: the sentiment fields of the enriched output depend only on the
raw `review_text`, never on the cleaned text: two pipeline runs that
differ only in the text-cleaning function produce identical
`(sentiment_label, sentiment_score)` pairs on every record. -/
theorem sentiment_independent_of_cleaning (a : SentimentAnalyzer)
    (tm : List (String × String)) (top_n : Nat)
    (clean1 clean2 : String → String) (rows : List ValidatedReview) :
    (enrichBank a tm top_n clean1 rows).map
        (fun e => (e.sentiment_label, e.sentiment_score)) =
      (enrichBank a tm top_n clean2 rows).map
        (fun e => (e.sentiment_label, e.sentiment_score)) := by
  simp [enrichBank, List.map_map, Function.comp_def]

/-- Totality of the lexicographic comparison. -/
theorem lexLeAux_total : ∀ as bs : List Char,
    lexLeAux as bs = true ∨ lexLeAux bs as = true
  | [], _ => Or.inl rfl
  | _ :: _, [] => Or.inr rfl
  | a :: as, b :: bs => by
    rcases Nat.lt_trichotomy a.toNat b.toNat with h | h | h
    · left; simp [lexLeAux, h]
    · rcases lexLeAux_total as bs with ih | ih
      · left; simp [lexLeAux, h, ih]
      · right; simp [lexLeAux, h.symm, ih]
    · right; simp [lexLeAux, h]

/-- Transitivity of the lexicographic comparison. -/
theorem lexLeAux_trans : ∀ as bs cs : List Char,
    lexLeAux as bs = true → lexLeAux bs cs = true → lexLeAux as cs = true
  | [], _, _, _, _ => rfl
  | a :: as, b :: bs, [], hab, hbc => by simp [lexLeAux] at hbc
  | a :: as, [], cs, hab, hbc => by simp [lexLeAux] at hab
  | a :: as, b :: bs, c :: cs, hab, hbc => by
    simp only [lexLeAux] at hab hbc ⊢
    rcases Nat.lt_trichotomy a.toNat c.toNat with h | h | h
    · simp [h]
    · rw [if_neg (by omega), if_neg (by omega)]
      rcases Nat.lt_trichotomy a.toNat b.toNat with h1 | h1 | h1
      · rcases Nat.lt_trichotomy b.toNat c.toNat with h2 | h2 | h2
        · omega
        · omega
        · rw [if_neg (by omega), if_pos (by omega)] at hbc; exact absurd hbc (by simp)
      · rw [if_neg (by omega), if_neg (by omega)] at hab
        rw [if_neg (by omega), if_neg (by omega)] at hbc
        exact lexLeAux_trans as bs cs hab hbc
      · rw [if_neg (by omega), if_pos (by omega)] at hab; exact absurd hab (by simp)
    · rcases Nat.lt_trichotomy a.toNat b.toNat with h1 | h1 | h1
      · rw [if_neg (by omega), if_pos (by omega)] at hbc; exact absurd hbc (by simp)
      · rw [if_neg (by omega), if_pos (by omega)] at hbc; exact absurd hbc (by simp)
      · rw [if_neg (by omega), if_pos (by omega)] at hab; exact absurd hab (by simp)

/-- Antisymmetry of the lexicographic comparison. -/
theorem lexLeAux_antisymm : ∀ as bs : List Char,
    lexLeAux as bs = true → lexLeAux bs as = true → as = bs
  | [], [], _, _ => rfl
  | [], _ :: _, _, hba => by simp [lexLeAux] at hba
  | _ :: _, [], hab, _ => by simp [lexLeAux] at hab
  | a :: as, b :: bs, hab, hba => by
    simp only [lexLeAux] at hab hba
    rcases Nat.lt_trichotomy a.toNat b.toNat with h | h | h
    · rw [if_neg (by omega), if_pos (by omega)] at hba; exact absurd hba (by simp)
    · rw [if_neg (by omega), if_neg (by omega)] at hab hba
      have hc : a = b := by
        apply Char.ext; apply UInt32.ext; simpa [Char.toNat] using h
      rw [hc, lexLeAux_antisymm as bs hab hba]
    · rw [if_neg (by omega), if_pos (by omega)] at hab; exact absurd hab (by simp)

/-- Antisymmetry of `lexLe` on strings. -/
theorem lexLe_antisymm (a b : String) (hab : lexLe a b = true)
    (hba : lexLe b a = true) : a = b :=
  String.ext (lexLeAux_antisymm a.toList b.toList hab hba)

/-- C4: the Keyword Extractor computes the per-document keyword lists of
the whole corpus (`extract_keywords` is their element-wise map); for
every document of the corpus the returned sequence has at most `top_n`
terms, every returned term occurs among that document's own terms, and
when the document's vocabulary has at most `top_n` distinct terms every
term of the document is returned (all available terms, no failure). -/
theorem extract_keywords_bounded (corpus : List String) (top_n : Nat)
    (d : String) (hd : d ∈ corpus) :
    extract_keywords corpus top_n = corpus.map (keywordsFor corpus top_n) ∧
      (keywordsFor corpus top_n d).length ≤ top_n ∧
      (∀ t ∈ keywordsFor corpus top_n d, t ∈ docTerms d) ∧
      ((vocabOf d).length ≤ top_n →
        ∀ t ∈ docTerms d, t ∈ keywordsFor corpus top_n d) := by
  have hperm := List.mergeSort_perm (vocabOf d) fun a b =>
    decide (tfidf corpus d a > tfidf corpus d b) ||
      (decide (tfidf corpus d a = tfidf corpus d b) && lexLe a b)
  refine ⟨rfl, ?_, ?_, ?_⟩
  · rw [keywordsFor, List.length_take]
    exact min_le_left _ _
  · intro t ht
    have h1 : t ∈ (vocabOf d).mergeSort _ :=
      (List.take_sublist _ _).subset ht
    have h2 : t ∈ vocabOf d := hperm.mem_iff.mp h1
    exact List.mem_dedup.mp h2
  · intro hlen t ht
    have hle : ((vocabOf d).mergeSort fun a b =>
        decide (tfidf corpus d a > tfidf corpus d b) ||
          (decide (tfidf corpus d a = tfidf corpus d b) && lexLe a b)).length ≤ top_n := by
      rw [hperm.length_eq]; exact hlen
    rw [keywordsFor, List.take_of_length_le hle]
    exact hperm.mem_iff.mpr (List.mem_dedup.mpr ht)

/-- C4 witness: the bounds at a concrete two-document corpus. -/
theorem extract_keywords_bounded_witness :
    extract_keywords ["good app", "bad slow app"] 2 =
        ["good app", "bad slow app"].map (keywordsFor ["good app", "bad slow app"] 2) ∧
      (keywordsFor ["good app", "bad slow app"] 2 "good app").length ≤ 2 ∧
      (∀ t ∈ keywordsFor ["good app", "bad slow app"] 2 "good app",
        t ∈ docTerms "good app") ∧
      ((vocabOf "good app").length ≤ 2 →
        ∀ t ∈ docTerms "good app",
          t ∈ keywordsFor ["good app", "bad slow app"] 2 "good app") :=
  extract_keywords_bounded ["good app", "bad slow app"] 2 "good app"
    (List.mem_cons_self _ _)

/-- C5: every per-document keyword list is ordered by strictly
descending TF-IDF weight except that terms of equal weight appear in
strictly increasing lexicographic order: for any two returned terms, the
earlier one either weighs strictly more, or weighs the same and is
lexicographically smaller. -/
theorem keywords_sorted_desc (corpus : List String) (top_n : Nat) (d : String) :
    (keywordsFor corpus top_n d).Pairwise fun a b =>
      tfidf corpus d a > tfidf corpus d b ∨
        (tfidf corpus d a = tfidf corpus d b ∧ lexLt a b = true) := by
  set le : String → String → Bool := fun a b =>
    decide (tfidf corpus d a > tfidf corpus d b) ||
      (decide (tfidf corpus d a = tfidf corpus d b) && lexLe a b) with hle
  have htrans : ∀ a b c, le a b = true → le b c = true → le a c = true := by
    intro a b c hab hbc
    rw [hle] at hab hbc ⊢
    simp only [Bool.or_eq_true, Bool.and_eq_true, decide_eq_true_eq] at hab hbc ⊢
    rcases hab with h1 | ⟨h1, h1l⟩ <;> rcases hbc with h2 | ⟨h2, h2l⟩
    · exact Or.inl (lt_trans h2 h1)
    · exact Or.inl (h2 ▸ h1)
    · exact Or.inl (h1 ▸ h2)
    · exact Or.inr ⟨h1.trans h2, lexLeAux_trans _ _ _ h1l h2l⟩
  have htotal : ∀ a b, (le a b || le b a) = true := by
    intro a b
    rw [hle]
    simp only [Bool.or_eq_true, Bool.and_eq_true, decide_eq_true_eq]
    rcases lt_trichotomy (tfidf corpus d a) (tfidf corpus d b) with h | h | h
    · exact Or.inr (Or.inl h)
    · rcases lexLeAux_total a.toList b.toList with hl | hl
      · exact Or.inl (Or.inr ⟨h, hl⟩)
      · exact Or.inr (Or.inr ⟨h.symm, hl⟩)
    · exact Or.inl (Or.inl h)
  have hsorted : ((vocabOf d).mergeSort le).Pairwise fun a b => le a b = true :=
    List.sorted_mergeSort htrans htotal (vocabOf d)
  have hnodup : ((vocabOf d).mergeSort le).Nodup :=
    (List.mergeSort_perm (vocabOf d) le).symm.nodup (List.nodup_dedup _)
  have hcomb := hsorted.and hnodup
  have himp : (keywordsFor corpus top_n d).Pairwise fun a b =>
      le a b = true ∧ a ≠ b := by
    rw [keywordsFor]
    exact hcomb.sublist (List.take_sublist _ _)
  refine himp.imp ?_
  intro a b ⟨hab, hne⟩
  rw [hle] at hab
  simp only [Bool.or_eq_true, Bool.and_eq_true, decide_eq_true_eq] at hab
  rcases hab with h | ⟨heq, hl⟩
  · exact Or.inl h
  · refine Or.inr ⟨heq, ?_⟩
    have hnl : lexLe b a ≠ true := fun hba =>
      hne (lexLe_antisymm a b hl hba)
    simp [lexLt, hl, hnl]

/-- Digit characters are digits. -/
theorem isDigitCh_digitChar (n : Nat) : isDigitCh (digitChar n) = true := by
  unfold digitChar
  split <;> decide

/-- Rendered dates always have the canonical `YYYY-MM-DD` shape. -/
theorem isCanonDate_renderDate (y m d : Nat) :
    isCanonDate (renderDate y m d) = true := by
  simp [renderDate, isCanonDate, isDigitCh_digitChar]

/-- Every successfully normalized date string is canonical. -/
theorem normalizeDate_canon (rd : RawDate) (s : String)
    (h : normalizeDate rd = some s) : isCanonDate s = true := by
  cases rd with
  | iso t =>
    simp only [normalizeDate, normIso] at h
    split at h
    · rename_i hc
      cases h
      exact hc
    · split at h
      · rename_i heq
        split at h
        · rename_i hc
          cases h
          exact (Bool.and_eq_true _ _).mp hc |>.2
        · cases h
      · cases h
  | epochMillis ms =>
    simp only [normalizeDate, normEpoch] at h
    split at h
    · cases h
      exact isCanonDate_renderDate _ _ _
    · cases h
  | locale t =>
    simp only [normalizeDate, normLocale] at h
    split at h
    · rename_i heq
      split at h
      · rename_i hc
        cases h
        exact ((Bool.and_eq_true _ _).mp hc).2
      · cases h
    · cases h

/-- What validation guarantees about a surviving row: the rating is in
`[1, 5]` and the date string is canonical. -/
theorem validateRow_inv (r : RawReview) (v : ValidatedReview)
    (h : validateRow r = some v) :
    (1 ≤ v.rating ∧ v.rating ≤ 5) ∧ isCanonDate v.date = true := by
  unfold validateRow at h
  split at h
  · rename_i t rt rd heq1 heq2 heq3
    split at h
    · rename_i hrt
      split at h
      · rename_i ds hnd
        cases h
        exact ⟨hrt, normalizeDate_canon rd ds hnd⟩
      · cases h
    · cases h
  · cases h

/-- Re-validating a row that survived validation reproduces it exactly. -/
theorem validateRow_reinject (r : RawReview) (v : ValidatedReview)
    (h : validateRow r = some v) : validateRow (reinject v) = some v := by
  obtain ⟨hrt, hcanon⟩ := validateRow_inv r v h
  simp [validateRow, reinject, hrt, normalizeDate, normIso, hcanon]

/-- `dedupeRows` only keeps rows of its input, in input order. -/
theorem dedupeRows_sublist (seen : List (String × String × String)) :
    ∀ l : List ValidatedReview, (dedupeRows seen l).Sublist l
  | [] => List.Sublist.refl []
  | v :: vs => by
    unfold dedupeRows
    split
    · exact (dedupeRows_sublist seen vs).cons v
    · exact (dedupeRows_sublist _ vs).cons₂ v

/-- Keys emitted by `dedupeRows` are distinct and avoid `seen`. -/
theorem dedupeRows_keys : ∀ (seen : List (String × String × String))
    (l : List ValidatedReview),
    ((dedupeRows seen l).map dedupKey).Nodup ∧
      ∀ k ∈ (dedupeRows seen l).map dedupKey, k ∉ seen
  | seen, [] => ⟨List.Pairwise.nil, by simp [dedupeRows]⟩
  | seen, v :: vs => by
    unfold dedupeRows
    split
    · exact dedupeRows_keys seen vs
    · rename_i hnot
      obtain ⟨ih1, ih2⟩ := dedupeRows_keys (dedupKey v :: seen) vs
      constructor
      · rw [List.map_cons, List.nodup_cons]
        refine ⟨fun hmem => ?_, ih1⟩
        exact (ih2 _ hmem) (List.mem_cons_self _ _)
      · intro k hk
        rw [List.map_cons, List.mem_cons] at hk
        rcases hk with rfl | hk
        · exact hnot
        · exact fun hs => (ih2 k hk) (List.mem_cons_of_mem _ hs)

/-- `dedupeRows` is the identity on inputs whose keys are already
distinct and disjoint from `seen`. -/
theorem dedupeRows_id : ∀ (seen : List (String × String × String))
    (l : List ValidatedReview),
    (l.map dedupKey).Nodup → (∀ k ∈ l.map dedupKey, k ∉ seen) →
    dedupeRows seen l = l
  | seen, [], _, _ => rfl
  | seen, v :: vs, hnd, hdisj => by
    rw [List.map_cons, List.nodup_cons] at hnd
    unfold dedupeRows
    rw [if_neg (hdisj _ (by simp)), dedupeRows_id _ vs hnd.2 ?_]
    intro k hk
    rw [List.mem_cons]
    rintro (rfl | hs)
    · exact hnd.1 hk
    · exact hdisj k (List.mem_cons_of_mem _ hk) hs

/-- `filterMap` of a function fixing every member is the identity. -/
theorem filterMap_fix {α : Type} (f : α → Option α) :
    ∀ l : List α, (∀ v ∈ l, f v = some v) → l.filterMap f = l
  | [], _ => rfl
  | v :: vs, h => by
    rw [List.filterMap_cons, h v (by simp),
      filterMap_fix f vs fun x hx => h x (List.mem_cons_of_mem _ hx)]

/-- Every row kept by `dedupeRows` is the first input row bearing its
deduplication key. -/
theorem dedupeRows_first : ∀ (seen : List (String × String × String))
    (l : List ValidatedReview) (v : ValidatedReview),
    v ∈ dedupeRows seen l →
      dedupKey v ∉ seen ∧
        l.find? (fun x => decide (dedupKey x = dedupKey v)) = some v
  | seen, [], v, hv => by simp [dedupeRows] at hv
  | seen, w :: vs, v, hv => by
    rw [List.find?_cons]
    unfold dedupeRows at hv
    split at hv
    · rename_i hseen
      obtain ⟨h1, h2⟩ := dedupeRows_first seen vs v hv
      refine ⟨h1, ?_⟩
      have hne : dedupKey w ≠ dedupKey v := fun he => h1 (he ▸ hseen)
      rw [decide_eq_false hne]
      exact h2
    · rename_i hseen
      rw [List.mem_cons] at hv
      rcases hv with rfl | hv
      · exact ⟨hseen, by simp⟩
      · obtain ⟨h1, h2⟩ := dedupeRows_first (dedupKey w :: seen) vs v hv
        have hne : dedupKey w ≠ dedupKey v := fun he => h1 (by simp [he])
        refine ⟨fun hs => h1 (List.mem_cons_of_mem _ hs), ?_⟩
        rw [decide_eq_false hne]
        exact h2

/-- C6: the Normalizer's deduplication is idempotent — re-running the
Normalizer on (a re-presentation of) its own output removes no further
rows — and it keys on exact `(text, date, bank)`, keeps the first
occurrence of each key, and preserves input order (the output is a
sublist of the validated input). -/
theorem normalizer_dedup_idempotent (batch : List RawReview) :
    (clean_reviews ((clean_reviews batch).1.map reinject)).1 =
        (clean_reviews batch).1 ∧
      (clean_reviews batch).1.Sublist (batch.filterMap validateRow) ∧
      ((clean_reviews batch).1.map dedupKey).Nodup ∧
      ∀ v ∈ (clean_reviews batch).1,
        (batch.filterMap validateRow).find?
            (fun x => decide (dedupKey x = dedupKey v)) = some v := by
  have hsub : (clean_reviews batch).1.Sublist (batch.filterMap validateRow) :=
    dedupeRows_sublist [] _
  have hkeys := dedupeRows_keys [] (batch.filterMap validateRow)
  have hfix : ∀ v ∈ (clean_reviews batch).1,
      validateRow (reinject v) = some v := by
    intro v hv
    have hv2 : v ∈ batch.filterMap validateRow := hsub.subset hv
    rw [List.mem_filterMap] at hv2
    obtain ⟨r, _, hr⟩ := hv2
    exact validateRow_reinject r v hr
  refine ⟨?_, hsub, hkeys.1, ?_⟩
  · show dedupeRows []
        (((clean_reviews batch).1.map reinject).filterMap validateRow) =
      (clean_reviews batch).1
    rw [List.filterMap_map]
    rw [filterMap_fix (validateRow ∘ reinject) _ hfix]
    exact dedupeRows_id [] _ hkeys.1 (by simp)
  · intro v hv
    exact (dedupeRows_first [] _ v hv).2

/-- A concrete raw batch with an exact duplicate and a missing-text row,
used to witness the Normalizer theorem. -/
def sampleBatch : List RawReview :=
  [{ text := some "hi", rating := some 5, date := some (.iso "2024-01-01"),
     bank := "BOA", source := none },
   { text := some "hi", rating := some 5, date := some (.iso "2024-01-01"),
     bank := "BOA", source := some "gp" },
   { text := none, rating := some 3, date := some (.iso "2024-01-01"),
     bank := "BOA", source := none }]

/-- C6 witness: idempotence and first-occurrence selection at the
concrete duplicate-bearing batch. -/
theorem normalizer_dedup_idempotent_witness :
    (clean_reviews ((clean_reviews sampleBatch).1.map reinject)).1 =
        (clean_reviews sampleBatch).1 ∧
      (sampleBatch.filterMap validateRow).find?
          (fun x => decide (dedupKey x = dedupKey
            { review_text := "hi", rating := 5, date := "2024-01-01",
              bank := "BOA", source := "Google Play" })) =
        some { review_text := "hi", rating := 5, date := "2024-01-01",
               bank := "BOA", source := "Google Play" } :=
  ⟨(normalizer_dedup_idempotent sampleBatch).1,
    (normalizer_dedup_idempotent sampleBatch).2.2.2 _ (by decide)⟩
